import Mathlib

/-!
Verification development for the feed-baby repository.

This file shallowly embeds the parts of the code that the checked claims
are about:

* `feed_baby/units.py` — decimal volume conversions.  Python `Decimal`
  values are modelled as coefficient–exponent pairs, and the arithmetic
  of the default context is modelled digit-faithfully: 28-significant-
  digit rounding (`ROUND_HALF_EVEN`) after multiplication and division,
  `ROUND_HALF_UP` quantization, and the `InvalidOperation` that
  `quantize` raises when a result coefficient exceeds the precision.
* `feed_baby/feed.py` — the `Feed` record and `Feed.from_form`.
  `pendulum` datetimes are modelled as an opaque record of the strings
  they were parsed from; only the volume arithmetic matters here.
* `feed_baby/session_cache.py`, `feed_baby/auth.py`, `feed_baby/csrf.py` —
  the request-scoped session cache and the two middlewares, modelled as
  state-passing functions over an explicit request state.  The sqlite
  session table is modelled as a total lookup function
  (`String → Option (Nat × String)`); `sqlite3.Error` paths, which the
  code maps to "no session", are not separately modelled.
* `feed_baby/user.py` — PBKDF2 password hashing and verification, with a
  full executable model of SHA-256 / HMAC-SHA256 / PBKDF2-HMAC-SHA256
  (the `hashlib`/`secrets` primitives the code calls).  These definitions
  are never evaluated at their astronomical iteration counts; the theorems
  treat the derived hash as an opaque value with proved structural
  properties (its hex encoding is ASCII and contains no separator).
* `feed_baby/app.py` — the `post_login` cookie handling.
* CPython `uuid.uuid4` / `secrets.token_urlsafe` — the token generators
  used by `create_session`, modelled over their random byte inputs.
-/

namespace FeedBaby

/-! ## units.py

The conversions operate on Python `decimal.Decimal` values under the
default context: precision 28 significant digits, rounding
`ROUND_HALF_EVEN`.  A `Decimal` is modelled as a signed integer
coefficient with a power-of-ten exponent, denoting `c * 10 ^ e`; context
rounding, `quantize` (including the `InvalidOperation` it raises when the
result coefficient would exceed the precision, modelled as `.error ()`)
and true division are modelled digit-faithfully.  The context exponent
limits (`Emin`/`Emax` of about a million) lie far outside every value
reachable here and are not modelled.  All rounding is computed with
integer division (`Int.ediv`/`Int.emod`, floor semantics for the positive
divisors used). -/

/-- Python `decimal.Decimal` value: coefficient and exponent, denoting
`c * 10 ^ e`.  The sign lives on the coefficient. -/
structure Dec where
  c : ℤ
  e : ℤ
deriving DecidableEq, Repr

/-- Digit counting by repeated division; the fuel argument (instantiated
with the number itself) only makes the recursion structural. -/
def digitsGo : ℕ → ℕ → ℕ
  | 0, _ => 0
  | fuel + 1, n => if n < 10 then 0 else digitsGo fuel (n / 10) + 1

/-- Number of decimal digits of a coefficient, `len(str(abs(c)))`
(one digit for zero). -/
def numDigits (c : ℤ) : ℕ := digitsGo c.natAbs c.natAbs + 1

/-- Round `c / d` (for `0 < d`) to the nearest integer with ties to even:
the `ROUND_HALF_EVEN` rounding of the default context. -/
def rheDiv (c : ℤ) (d : ℕ) : ℤ :=
  let q := Int.ediv c d
  let r := Int.emod c d
  if 2 * r < (d : ℤ) then q
  else if (d : ℤ) < 2 * r then q + 1
  else if Int.emod q 2 = 0 then q else q + 1

/-- Round `c / d` (for `0 < d`) to the nearest integer with ties away
from zero: the `ROUND_HALF_UP` rounding mode. -/
def rhuDiv (c : ℤ) (d : ℕ) : ℤ :=
  if 0 ≤ c then Int.ediv (2 * c + d) (2 * d)
  else -Int.ediv (2 * (-c) + d) (2 * d)

/-- Context rounding of a result (`Decimal._fix`): a coefficient longer
than `prec` digits is rounded half-even at the excess digits; if the
rounding lengthens the coefficient to `prec + 1` digits (a power of ten),
the trailing zero is dropped and the exponent bumped. -/
def ctxRound (prec : ℕ) (d : Dec) : Dec :=
  if numDigits d.c ≤ prec then d
  else
    let shift := numDigits d.c - prec
    let c2 := rheDiv d.c (10 ^ shift)
    if prec < numDigits c2 then ⟨Int.ediv c2 10, d.e + shift + 1⟩
    else ⟨c2, d.e + shift⟩

/-- Python `Decimal.__mul__` under the default context: exact coefficient
product and exponent sum, then context rounding to 28 digits. -/
def Dec.mul (a b : Dec) : Dec := ctxRound 28 ⟨a.c * b.c, a.e + b.e⟩

/-- Python `Decimal.quantize(..., rounding=ROUND_HALF_UP)` under the
default context: rescale the value to the target exponent, rounding half
away from zero (an exact upscale when the target exponent is smaller);
`InvalidOperation` is raised — modelled as `.error ()` — when the result
coefficient would exceed the 28-digit precision. -/
def Dec.quantizeHalfUp (d : Dec) (targetExp : ℤ) : Except Unit Dec :=
  let k := d.e - targetExp
  let c2 := if 0 ≤ k then d.c * 10 ^ k.toNat else rhuDiv d.c (10 ^ (-k).toNat)
  if 28 < numDigits c2 then .error ()
  else .ok ⟨c2, targetExp⟩

/-- Trailing-zero stripping toward the ideal exponent for an exact
quotient (`Decimal.__truediv__`). -/
def stripZeros (c : ℕ) (e ideal : ℤ) : ℕ × ℤ :=
  go (ideal - e).toNat c e
where
  go : ℕ → ℕ → ℤ → ℕ × ℤ
  | 0, c, e => (c, e)
  | k + 1, c, e => if c % 10 = 0 ∧ c ≠ 0 then go k (c / 10) (e + 1) else (c, e)

/-- Python `Decimal.__truediv__` under the default context (CPython
`_pydecimal`): the quotient is computed to `prec + 1 = 29` digits; if
inexact, a trailing digit divisible by five is nudged so the final
half-even context rounding is correct; if exact, trailing zeros are
stripped toward the ideal exponent.  Signs are carried on the
coefficients; its single call site divides two positive values. -/
def Dec.divide (a b : Dec) : Dec :=
  let shift : ℤ := (numDigits b.c : ℤ) - numDigits a.c + 28 + 1
  let exp := a.e - b.e - shift
  let num := if 0 ≤ shift then a.c.natAbs * 10 ^ shift.toNat else a.c.natAbs
  let den := if 0 ≤ shift then b.c.natAbs else b.c.natAbs * 10 ^ (-shift).toNat
  let coeff := num / den
  let rem := num % den
  let sgn : ℤ := a.c.sign * b.c.sign
  if rem ≠ 0 then
    ctxRound 28 ⟨sgn * (if coeff % 5 = 0 then coeff + 1 else coeff), exp⟩
  else
    let p := stripZeros coeff exp (a.e - b.e)
    ctxRound 28 ⟨sgn * p.1, p.2⟩

/-- Conversion constant from `units.py`:
`OZ_TO_MICROLITERS = Decimal("29573.5")`. -/
def OZ_TO_MICROLITERS : Dec := ⟨295735, -1⟩

/-- Constant `MICROLITERS_TO_OZ = Decimal("1") / OZ_TO_MICROLITERS`: the
28-significant-digit quotient the default context produces. -/
def MICROLITERS_TO_OZ : Dec := Dec.divide ⟨1, 0⟩ OZ_TO_MICROLITERS

/-- Function `units.ounces_to_microliters`: multiply by the constant,
quantize to an integer with `ROUND_HALF_UP` (which can raise
`InvalidOperation`), and take `int()` of the exponent-zero result — its
coefficient. -/
def ounces_to_microliters (ounces : Dec) : Except Unit ℤ :=
  ((ounces.mul OZ_TO_MICROLITERS).quantizeHalfUp 0).map (fun d => d.c)

/-- Function `units.microliters_to_ounces`: `Decimal(microliters)` (exact)
times `MICROLITERS_TO_OZ`, quantized to two decimal places with
`ROUND_HALF_UP` (which can raise `InvalidOperation`). -/
def microliters_to_ounces (microliters : ℤ) : Except Unit Dec :=
  ((Dec.mk microliters 0).mul MICROLITERS_TO_OZ).quantizeHalfUp (-2)

/-! ### helper lemmas about the digit count and the integer rounding -/

lemma digitsGo_eq_log : ∀ (fuel n : ℕ), n ≤ fuel → digitsGo fuel n = Nat.log 10 n := by
  intro fuel
  induction fuel with
  | zero =>
    intro n hn
    interval_cases n
    simp [digitsGo, Nat.log_zero_right]
  | succ fuel ih =>
    intro n hn
    unfold digitsGo
    by_cases h : n < 10
    · rw [if_pos h, Nat.log_eq_zero_iff.2 (Or.inl h)]
    · rw [if_neg h, ih (n / 10) (by
        have := Nat.div_lt_self (by omega : 0 < n) (by omega : 1 < 10)
        omega)]
      rw [Nat.log_div_base]
      have : Nat.log 10 n ≠ 0 := by
        rw [Ne, Nat.log_eq_zero_iff]
        push_neg
        omega
      omega

lemma numDigits_eq_log (c : ℤ) : numDigits c = Nat.log 10 c.natAbs + 1 := by
  unfold numDigits
  rw [digitsGo_eq_log _ _ le_rfl]

lemma numDigits_le_iff {c : ℤ} {k : ℕ} (hk : 1 ≤ k) :
    numDigits c ≤ k ↔ c.natAbs < 10 ^ k := by
  rw [numDigits_eq_log]
  rcases eq_or_ne c.natAbs 0 with h | h
  · simp only [h, Nat.log_zero_right, zero_add, hk, iff_true_intro hk]
    simp [pow_pos]
  · rw [Nat.add_one_le_iff, ← Nat.lt_pow_iff_log_lt (by omega) h]

lemma rheDiv_close (c : ℤ) (d : ℕ) (hd : 0 < d) :
    2 * |rheDiv c d * (d : ℤ) - c| ≤ d := by
  have hdz : ((d : ℤ)) ≠ 0 := by exact_mod_cast hd.ne'
  have h1 : (d : ℤ) * (Int.ediv c d) + Int.emod c d = c := Int.ediv_add_emod c d
  have h2 : 0 ≤ Int.emod c d := Int.emod_nonneg c hdz
  have h3 : Int.emod c d < d := Int.emod_lt_of_pos c (by exact_mod_cast hd)
  simp only [rheDiv]
  set q := Int.ediv c (d : ℤ) with hq
  set r := Int.emod c (d : ℤ) with hr
  split_ifs with hlt hgt hev
  · have he : q * (d : ℤ) - c = -r := by linarith
    rw [he, abs_neg, abs_of_nonneg h2]
    linarith
  · have he : (q + 1) * (d : ℤ) - c = (d : ℤ) - r := by ring_nf; linarith
    rw [he, abs_of_nonneg (by linarith)]
    linarith
  · have he : q * (d : ℤ) - c = -r := by linarith
    rw [he, abs_neg, abs_of_nonneg h2]
    linarith
  · have he : (q + 1) * (d : ℤ) - c = (d : ℤ) - r := by ring_nf; linarith
    rw [he, abs_of_nonneg (by linarith)]
    linarith

lemma rhuDiv_close (c : ℤ) (d : ℕ) (hd : 0 < d) :
    2 * |rhuDiv c d * (d : ℤ) - c| ≤ d := by
  have hd2 : (0 : ℤ) < 2 * d := by positivity
  have hdz : (2 * (d : ℤ)) ≠ 0 := hd2.ne'
  rw [rhuDiv]
  split_ifs with hc
  · have hcv : Int.ediv (2 * c + (d : ℤ)) (2 * d) = (2 * c + (d : ℤ)) / (2 * d) := rfl
    rw [hcv]
    set m := (2 * c + (d : ℤ)) / (2 * d) with hm
    have h1 : (2 * (d : ℤ)) * m + (2 * c + (d : ℤ)) % (2 * d) = 2 * c + d :=
      Int.ediv_add_emod (2 * c + d) (2 * d)
    have h2 : 0 ≤ (2 * c + (d : ℤ)) % (2 * d) := Int.emod_nonneg _ hdz
    have h3 : (2 * c + (d : ℤ)) % (2 * d) < 2 * d := Int.emod_lt_of_pos _ hd2
    have he : 2 * (m * (d : ℤ) - c) = (d : ℤ) - (2 * c + (d : ℤ)) % (2 * d) := by
      linarith
    have : 2 * |m * (d : ℤ) - c| = |2 * (m * (d : ℤ) - c)| := by
      rw [abs_mul]; norm_num
    rw [this, he, abs_le]
    constructor <;> linarith
  · have hcv : Int.ediv (2 * (-c) + (d : ℤ)) (2 * d) = (2 * (-c) + (d : ℤ)) / (2 * d) := rfl
    rw [hcv]
    set m := (2 * (-c) + (d : ℤ)) / (2 * d) with hm
    have h1 : (2 * (d : ℤ)) * m + (2 * (-c) + (d : ℤ)) % (2 * d) = 2 * (-c) + d :=
      Int.ediv_add_emod (2 * (-c) + d) (2 * d)
    have h2 : 0 ≤ (2 * (-c) + (d : ℤ)) % (2 * d) := Int.emod_nonneg _ hdz
    have h3 : (2 * (-c) + (d : ℤ)) % (2 * d) < 2 * d := Int.emod_lt_of_pos _ hd2
    have he : 2 * (-m * (d : ℤ) - c) = -((d : ℤ) - (2 * (-c) + (d : ℤ)) % (2 * d)) := by
      linarith
    have : 2 * |(-m) * (d : ℤ) - c| = |2 * ((-m) * (d : ℤ) - c)| := by
      rw [abs_mul]; norm_num
    rw [this, he, abs_neg, abs_le]
    constructor <;> linarith

lemma rhuDiv_eq_of_close (c : ℤ) (d : ℕ) (n : ℤ) (hd : 0 < d)
    (h : 2 * |c - n * d| < d) : rhuDiv c d = n := by
  have h1 := rhuDiv_close c d hd
  set u := rhuDiv c d with hu
  have h2 : (u - n) * (d : ℤ) = (u * d - c) + (c - n * d) := by ring
  have h3 : |u - n| * (d : ℤ) ≤ |u * (d : ℤ) - c| + |c - n * (d : ℤ)| := by
    calc |u - n| * (d : ℤ) = |(u - n) * (d : ℤ)| := by
          rw [abs_mul, abs_of_nonneg (by positivity : (0 : ℤ) ≤ (d : ℤ))]
      _ ≤ _ := by rw [h2]; exact abs_add _ _
  have h4 : |u - n| * (d : ℤ) < 1 * (d : ℤ) := by linarith
  have h5 : |u - n| < 1 := lt_of_mul_lt_mul_right h4 (by positivity)
  have h6 : |u - n| = 0 := le_antisymm (by omega) (abs_nonneg _)
  have := abs_eq_zero.1 h6
  linarith

lemma rheDiv_nonneg (c : ℤ) (d : ℕ) (h : 0 ≤ c) : 0 ≤ rheDiv c d := by
  have hq : 0 ≤ Int.ediv c d := Int.ediv_nonneg h (by positivity)
  simp only [rheDiv]
  split_ifs <;> linarith

lemma rhuDiv_nonneg (c : ℤ) (d : ℕ) (h : 0 ≤ c) : 0 ≤ rhuDiv c d := by
  rw [rhuDiv, if_pos h]
  exact Int.ediv_nonneg (by positivity) (by positivity)

lemma ctxRound_id (d : Dec) (h : numDigits d.c ≤ 28) : ctxRound 28 d = d := by
  rw [ctxRound, if_pos h]

lemma ctxRound_nonneg (d : Dec) (h : 0 ≤ d.c) : 0 ≤ (ctxRound 28 d).c := by
  simp only [ctxRound]
  split_ifs with h1 h2
  · exact h
  · exact Int.ediv_nonneg (rheDiv_nonneg _ _ h) (by norm_num : (0 : ℤ) ≤ 10)
  · exact rheDiv_nonneg _ _ h

lemma natAbs_lt_pow_of_numDigits_le {c : ℤ} {k : ℕ} (hk : 1 ≤ k)
    (h : numDigits c ≤ k) : c.natAbs < 10 ^ k := (numDigits_le_iff hk).1 h

lemma ctxRound_spec (P e : ℤ) (S : ℕ) (hP : numDigits P ≤ 28 + S) :
    ∃ C : ℤ, ∃ t : ℕ, ctxRound 28 ⟨P, e⟩ = ⟨C, e + t⟩ ∧ t ≤ S + 1 ∧
      numDigits C ≤ 28 ∧ 2 * |C * 10 ^ t - P| ≤ 10 ^ S := by
  by_cases h : numDigits P ≤ 28
  · refine ⟨P, 0, ?_, by omega, h, by simp⟩
    rw [ctxRound_id ⟨P, e⟩ h]
    simp
  · push_neg at h
    have hS1 : 1 ≤ numDigits P - 28 := by omega
    have hSS : numDigits P - 28 ≤ S := by omega
    set sh := numDigits P - 28 with hsh
    set c2 := rheDiv P (10 ^ sh) with hc2
    have hclose : 2 * |c2 * ((10 : ℤ) ^ sh) - P| ≤ (10 : ℤ) ^ sh := by
      have := rheDiv_close P (10 ^ sh) (by positivity)
      push_cast at this
      exact this
    have herr : 2 * |c2 * (10 : ℤ) ^ sh - P| ≤ 10 ^ S := by
      calc 2 * |c2 * (10 : ℤ) ^ sh - P| ≤ (10 : ℤ) ^ sh := hclose
        _ ≤ 10 ^ S := by
            apply pow_le_pow_right (by norm_num) hSS
    have hPabs : |P| < 10 ^ 28 * (10 : ℤ) ^ sh := by
      have h1 : P.natAbs < 10 ^ (28 + sh) := by
        apply natAbs_lt_pow_of_numDigits_le (by omega)
        omega
      have h2 : |P| = (P.natAbs : ℤ) := Int.abs_eq_natAbs P
      rw [h2, ← pow_add]
      exact_mod_cast h1
    have habs : |c2| ≤ 10 ^ 28 := by
      have htri : |c2| * (10 : ℤ) ^ sh - |P| ≤ |c2 * (10 : ℤ) ^ sh - P| := by
        have h1 := abs_sub_abs_le_abs_sub (c2 * (10 : ℤ) ^ sh) P
        have h2 : |c2 * (10 : ℤ) ^ sh| = |c2| * (10 : ℤ) ^ sh := by
          rw [abs_mul, abs_of_nonneg (by positivity : (0 : ℤ) ≤ (10 : ℤ) ^ sh)]
        linarith
      have hp : (0 : ℤ) < (10 : ℤ) ^ sh := by positivity
      nlinarith [hclose, hPabs, htri]
    simp only [ctxRound]
    rw [if_neg (by omega)]
    split_ifs with hbump
    · have hbump2 : 28 < numDigits c2 := hbump
      have hge : (10 : ℕ) ^ 28 ≤ c2.natAbs := by
        by_contra hlt
        push_neg at hlt
        exact absurd ((numDigits_le_iff (by omega)).2 hlt) (by omega)
      have heq : c2.natAbs = 10 ^ 28 := by
        have : (c2.natAbs : ℤ) ≤ 10 ^ 28 := by
          rw [← Int.abs_eq_natAbs]; exact habs
        have h2 : (c2.natAbs : ℤ) = 10 ^ 28 := le_antisymm this (by exact_mod_cast hge)
        exact_mod_cast h2
      have hdvd : (10 : ℤ) ∣ c2 := by
        rcases Int.natAbs_eq c2 with hc | hc
        · rw [hc, heq]
          exact ⟨10 ^ 27, by norm_num⟩
        · rw [hc, heq]
          exact ⟨-(10 ^ 27), by norm_num⟩
      have hcancel : Int.ediv c2 10 * 10 = c2 := Int.ediv_mul_cancel hdvd
      refine ⟨Int.ediv c2 10, sh + 1, ?_, by omega, ?_, ?_⟩
      · exact congrArg₂ Dec.mk rfl (by omega)
      · rw [numDigits_le_iff (by omega)]
        have h27 : (Int.ediv c2 10).natAbs = 10 ^ 27 := by
          have h10 : Int.ediv c2 10 * 10 = c2 := hcancel
          have : (Int.ediv c2 10).natAbs * 10 = 10 ^ 28 := by
            have := congrArg Int.natAbs h10
            rwa [Int.natAbs_mul, heq] at this
          omega
        rw [h27]
        norm_num
      · have hx : Int.ediv c2 10 * (10 : ℤ) ^ (sh + 1) = c2 * (10 : ℤ) ^ sh := by
          rw [pow_succ]
          calc Int.ediv c2 10 * ((10 : ℤ) ^ sh * 10)
              = (Int.ediv c2 10 * 10) * (10 : ℤ) ^ sh := by ring
            _ = c2 * (10 : ℤ) ^ sh := by rw [hcancel]
        rw [hx]
        exact herr
    · push_neg at hbump
      have hb2 : numDigits c2 ≤ 28 := hbump
      exact ⟨c2, sh, congrArg₂ Dec.mk rfl (by omega), by omega, hb2, herr⟩

lemma m_bound (n : ℤ) (hn : n.natAbs ≤ 10 ^ 21) :
    |rhuDiv (n * 295735) 1000| ≤ 295735 * 10 ^ 18 := by
  have hm := rhuDiv_close (n * 295735) 1000 (by norm_num)
  push_cast at hm
  set m := rhuDiv (n * 295735) 1000 with hmdef
  have hn2 : |n| ≤ 10 ^ 21 := by
    rw [Int.abs_eq_natAbs]
    exact_mod_cast hn
  have h1 : |m| * 1000 ≤ |m * 1000 - n * 295735| + |n * 295735| := by
    have htri := abs_sub_abs_le_abs_sub (m * 1000) (n * 295735)
    have habs : |m * (1000 : ℤ)| = |m| * 1000 := by
      rw [abs_mul]; norm_num
    linarith
  have h2 : |n * 295735| ≤ 10 ^ 21 * 295735 := by
    rw [abs_mul, (by norm_num : |(295735 : ℤ)| = 295735)]
    exact mul_le_mul_of_nonneg_right hn2 (by norm_num)
  have hpw : (10 : ℤ) ^ 21 * 295735 = 295735 * 10 ^ 18 * 1000 := by norm_num
  have h4 : |m| * 1000 < (295735 * 10 ^ 18 + 1) * 1000 := by nlinarith
  have h5 : |m| < 295735 * 10 ^ 18 + 1 :=
    lt_of_mul_lt_mul_right h4 (by norm_num : (0 : ℤ) ≤ 1000)
  exact Int.lt_add_one_iff.mp h5

lemma o2m_eval (n : ℤ) (hn : n.natAbs ≤ 10 ^ 21) :
    ounces_to_microliters ⟨n, -2⟩ = Except.ok (rhuDiv (n * 295735) 1000) := by
  have hdig : numDigits (n * 295735) ≤ 28 := by
    rw [numDigits_le_iff (by omega)]
    have h1 : (n * 295735).natAbs = n.natAbs * 295735 := by
      rw [Int.natAbs_mul]
      norm_num
    rw [h1]
    calc n.natAbs * 295735 ≤ 10 ^ 21 * 295735 := Nat.mul_le_mul_right _ hn
      _ < 10 ^ 28 := by norm_num
  have hmdig : numDigits (rhuDiv (n * 295735) 1000) ≤ 28 := by
    rw [numDigits_le_iff (by omega)]
    have := m_bound n hn
    have h2 : (rhuDiv (n * 295735) 1000).natAbs ≤ 295735 * 10 ^ 18 := by
      have h3 : ((rhuDiv (n * 295735) 1000).natAbs : ℤ) ≤ 295735 * 10 ^ 18 := by
        rw [← Int.abs_eq_natAbs]; exact this
      exact_mod_cast h3
    calc (rhuDiv (n * 295735) 1000).natAbs ≤ 295735 * 10 ^ 18 := h2
      _ < 10 ^ 28 := by norm_num
  have hmul : Dec.mul ⟨n, -2⟩ OZ_TO_MICROLITERS = ⟨n * 295735, -3⟩ := by
    have h0 : Dec.mul ⟨n, -2⟩ OZ_TO_MICROLITERS = ctxRound 28 ⟨n * 295735, -3⟩ := rfl
    rw [h0, ctxRound_id _ hdig]
  show ((Dec.mul ⟨n, -2⟩ OZ_TO_MICROLITERS).quantizeHalfUp 0).map (fun d => d.c) = _
  rw [hmul]
  have hq : Dec.quantizeHalfUp ⟨n * 295735, -3⟩ 0 =
      Except.ok ⟨rhuDiv (n * 295735) 1000, 0⟩ := by
    simp only [Dec.quantizeHalfUp]
    norm_num
    rw [(by rfl : (10 : ℕ) ^ Int.toNat 3 = 1000),
      if_neg (by omega : ¬ 28 < numDigits (rhuDiv (n * 295735) 1000))]
  rw [hq]
  rfl

/-! ## feed.py -/

/-- Model of a `pendulum.DateTime` built by `pendulum.from_format` in
`Feed.from_form`; only its identity matters for the checked claims, so it
keeps the strings it was parsed from. -/
structure DateTimeM where
  date : String
  time : String
  timezone : String
deriving DecidableEq, Repr

/-- Record `feed.Feed`: id, volume in integer microliters, datetime. -/
structure Feed where
  id : Option Nat
  volume_ul : ℤ
  datetime : DateTimeM
deriving DecidableEq, Repr

/-- Constructor `Feed.from_form`: parse the datetime and convert the
ounces `Decimal` to microliters (an exception from the conversion
propagates out of `from_form`). -/
def Feed.from_form (ounces : Dec) (time : String) (date : String)
    (timezone : String) : Except Unit Feed :=
  (ounces_to_microliters ounces).map fun volume_ul =>
    { id := none
      volume_ul := volume_ul
      datetime := { date := date, time := time, timezone := timezone } }

/-! ## user.py: the `User` record (fields used by the middleware layer) -/

/-- Record `user.User`.  Its `created_at` is kept as the string the database row holds;
pendulum parsing is outside the verified scope. -/
structure User where
  id : Option Nat
  username : String
  password_hash : String
  created_at : String
deriving DecidableEq, Repr

/-! ## session storage and request model

The sqlite `sessions` table is modelled as a total lookup function from
session id to `(user_id, csrf_token)`; the `users` table as a lookup from
user id to `User`.  `sqlite3.Error` paths (which both `get_session` and the
session cache turn into "no session") are not separately modelled. -/

/-- Lookup view of the `sessions` table: `SELECT user_id, csrf_token FROM
sessions WHERE id = ?`. -/
abbrev SessionStore : Type := String → Option (Nat × String)

/-- Lookup view of the `users` table keyed by id (`User.get_by_id`). -/
abbrev UserStore : Type := Nat → Option User

/-- The parts of a Starlette `Request` the middlewares read:
`request.method`, `request.cookies.get("session_id")` and
`request.headers.get("x-csrftoken")`.  A `none` cookie/header means the
cookie/header is absent; `some ""` means present with an empty value. -/
structure Request where
  method : String
  sessionCookie : Option String
  xcsrfToken : Option String
deriving DecidableEq, Repr

/-- Mutable `request.state` as the middlewares use it: the attached
`user` and `csrf_token`, the `_session_cache` attribute (`none` models the
attribute not being set at all), and an instrumentation counter of how many
session-table queries have been issued for this request. -/
structure ReqState where
  user : Option User
  csrfToken : Option String
  sessionCache : Option (Option (Nat × String))
  queries : Nat
deriving DecidableEq, Repr

/-- Request state at the start of a request: nothing attached, cache
attribute unset, no queries issued. -/
def initState : ReqState :=
  { user := none, csrfToken := none, sessionCache := none, queries := 0 }

/-- Function `session_cache.get_or_fetch_session`: return the cached session data if
the `_session_cache` attribute is set; otherwise read the `session_id`
cookie and, when it is present and non-empty (`if session_id:`), query the
session table once and cache the result; an absent or empty cookie caches
`none` without querying. -/
def get_or_fetch_session (store : SessionStore) (req : Request)
    (st : ReqState) : (Option (Nat × String)) × ReqState :=
  match st.sessionCache with
  | some cached => (cached, st)
  | none =>
    match req.sessionCookie with
    | some sid =>
      if sid = "" then (none, { st with sessionCache := some none })
      else
        let r := store sid
        (r, { st with sessionCache := some r, queries := st.queries + 1 })
    | none => (none, { st with sessionCache := some none })

/-- Outcome of a request as far as the two middlewares are concerned:
either the inner handler ran (and `routed` records the request state it
observed, which determines anything it could produce), or a 403 JSON
response with one of the two distinct CSRF rejection details. -/
inductive Response where
  | routed (st : ReqState)
  | csrfMissing
  | csrfInvalid
deriving DecidableEq, Repr

/-- A handler takes the request state and produces a response together with
the final request state; the `Except` layer models an uncaught Python
exception propagating out of the handler. -/
abbrev Handler : Type := ReqState → (Except Unit Response) × ReqState

/-- The innermost handler (`call_next` bottoming out at the route): it
records the request state it observes. -/
def baseHandler : Handler := fun st => (.ok (.routed st), st)

/-- Model of `secrets.compare_digest` on two `str` arguments: constant-time equality
when both are ASCII-only, `TypeError` (modelled as `.error ()`) when either
contains a non-ASCII character. -/
def isAsciiStr (s : String) : Bool := s.toList.all (fun c => c.toNat < 128)

def compare_digest (a b : String) : Except Unit Bool :=
  if isAsciiStr a then
    if isAsciiStr b then .ok (a == b) else .error ()
  else .error ()

/-! ## csrf.py -/

/-- Constant `csrf.CSRF_PROTECTED_METHODS`. -/
def CSRF_PROTECTED_METHODS : List String := ["POST", "PUT", "PATCH", "DELETE"]

/-- Constant `csrf.CSRF_SAFE_METHODS`. -/
def CSRF_SAFE_METHODS : List String := ["GET", "HEAD", "OPTIONS", "TRACE"]

/-- Middleware `csrf.CSRFMiddleware.dispatch`.  Note `if not client_token:` treats an
absent header and a present-but-empty header the same way, and an uncaught
`TypeError` from `secrets.compare_digest` propagates. -/
def CSRFMiddleware.dispatch (store : SessionStore) (req : Request)
    (next : Handler) : Handler := fun st =>
  if req.method ∈ CSRF_SAFE_METHODS then next st
  else
    match get_or_fetch_session store req st with
    | (none, st2) => next st2
    | (some (_user_id, csrf_token), st2) =>
      match req.xcsrfToken with
      | none => (.ok .csrfMissing, st2)
      | some client_token =>
        if client_token = "" then (.ok .csrfMissing, st2)
        else
          match compare_digest csrf_token client_token with
          | .error e => (.error e, st2)
          | .ok true => next st2
          | .ok false => (.ok .csrfInvalid, st2)

/-! ## auth.py: AuthMiddleware -/

/-- Middleware `auth.AuthMiddleware.dispatch`: reset `user`/`csrf_token`, resolve the
session through the request-scoped cache, attach `User.get_by_id(user_id)`
(possibly `None`) and the session csrf token when a session resolves, and
always call through to the next handler. -/
def AuthMiddleware.dispatch (sStore : SessionStore) (uStore : UserStore)
    (req : Request) (next : Handler) : Handler := fun st =>
  let st1 := { st with user := none, csrfToken := none }
  match get_or_fetch_session sStore req st1 with
  | (some (user_id, csrf_token), st2) =>
    next { st2 with user := uStore user_id, csrfToken := some csrf_token }
  | (none, st2) => next st2

/-! ## spec-side CSRF policy definitions

These two definitions are the designated spec-side counterparts for the
refinement-style claim about `CSRFMiddleware.dispatch`: the first renders
the claimed policy exactly as the claim states it, the second the amended
policy; each is compared against the source-derived `dispatch` above. -/

/-- The CSRF policy exactly as the claim states it: safe methods and
sessionless requests forward unchecked; with a session, an absent
`X-CSRFToken` header is rejected as "token missing", a header whose value
differs from the session token as "token invalid", and an equal value
forwards. -/
def csrfPolicyClaimed (store : SessionStore) (req : Request)
    (next : Handler) : Handler := fun st =>
  if req.method ∈ CSRF_SAFE_METHODS then next st
  else
    match get_or_fetch_session store req st with
    | (none, st2) => next st2
    | (some (_user_id, csrf_token), st2) =>
      match req.xcsrfToken with
      | none => (.ok .csrfMissing, st2)
      | some client_token =>
        if csrf_token == client_token then next st2
        else (.ok .csrfInvalid, st2)

/-- The amended CSRF policy: as claimed, except that a present-but-empty
header value is also rejected as "token missing" (not "token invalid"),
and when either compared value contains a non-ASCII character the
`TypeError` raised by `secrets.compare_digest` propagates instead of any
403 response. -/
def csrfPolicyAmended (store : SessionStore) (req : Request)
    (next : Handler) : Handler := fun st =>
  if req.method ∈ CSRF_SAFE_METHODS then next st
  else
    match get_or_fetch_session store req st with
    | (none, st2) => next st2
    | (some (_user_id, csrf_token), st2) =>
      match req.xcsrfToken with
      | none => (.ok .csrfMissing, st2)
      | some client_token =>
        if client_token = "" then (.ok .csrfMissing, st2)
        else if isAsciiStr csrf_token && isAsciiStr client_token then
          (if csrf_token == client_token then next st2
           else (.ok .csrfInvalid, st2))
        else (.error (), st2)

/-! ## app.py: post_login cookie handling -/

/-- String form of a Python pair of two simple strings, `str((a, b))`, which
is what `http.cookies.SimpleCookie` applies to a non-`str` cookie value.
Accurate for strings containing no quote, backslash or unprintable
character, which covers the generated session tokens. -/
def pyStrOfPair (p : String × String) : String :=
  "(\x27" ++ p.1 ++ "\x27, \x27" ++ p.2 ++ "\x27)"

/-- Function `auth.create_session`, with the two freshly generated random tokens
(`str(uuid.uuid4())` and `secrets.token_urlsafe(32)`) supplied as the `sid`
and `csrf` arguments: the session row is inserted and the
`(session_id, csrf_token)` pair returned.  The `SessionCreationError` path
(database failure) is outside this model. -/
def create_session (user_id : Nat) (sid csrf : String)
    (store : SessionStore) : (String × String) × SessionStore :=
  ((sid, csrf), fun s => if s = sid then some (user_id, csrf) else store s)

/-- Function `auth.get_session`: look the session id up in the sessions table;
a missing row (or a database error, not separately modelled) yields `none`. -/
def get_session (session_id : String) (store : SessionStore) :
    Option (Nat × String) :=
  store session_id

/-- The cookie-setting tail of `app.post_login` (and `post_register`) after
successful authentication: the code binds the entire pair returned by
`create_session` to the name `session_id` without unpacking it and passes
that pair to `response.set_cookie(key="session_id", value=session_id)`,
so the cookie value set on the redirect response is the pair stringified.
Returns that cookie value together with the updated session store. -/
def post_login_success (user_id : Nat) (sid csrf : String)
    (store : SessionStore) : String × SessionStore :=
  let r := create_session user_id sid csrf store
  (pyStrOfPair r.1, r.2)

/-! ## Byte-level model of the hashing primitives

`hashlib.pbkdf2_hmac("sha256", ...)` is modelled by an executable
implementation of SHA-256 (FIPS 180-4), HMAC-SHA256 and PBKDF2-HMAC-SHA256
over byte lists (`List ℕ`, every element `< 256` by construction).  32-bit
words are naturals reduced modulo `2 ^ 32` wherever overflow matters.  None
of the theorems below evaluate these functions at their 600000-iteration
call sites; they rely only on proved structural facts about the outputs. -/

/-- Addition of 32-bit words. -/
def add32 (a b : Nat) : Nat := (a + b) % 2 ^ 32

/-- Right rotation of a 32-bit word by `n` places. -/
def rotr32 (n w : Nat) : Nat := w / 2 ^ n + w % 2 ^ n * 2 ^ (32 - n)

/-- Logical right shift of a 32-bit word. -/
def shr32 (n w : Nat) : Nat := w / 2 ^ n

/-- Bitwise complement within 32 bits. -/
def not32 (w : Nat) : Nat := (2 ^ 32 - 1) ^^^ w

def shaCh (x y z : Nat) : Nat := x &&& y ^^^ not32 x &&& z

def shaMaj (x y z : Nat) : Nat := x &&& y ^^^ x &&& z ^^^ y &&& z

def bigSigma0 (x : Nat) : Nat := rotr32 2 x ^^^ rotr32 13 x ^^^ rotr32 22 x

def bigSigma1 (x : Nat) : Nat := rotr32 6 x ^^^ rotr32 11 x ^^^ rotr32 25 x

def smallSigma0 (x : Nat) : Nat := rotr32 7 x ^^^ rotr32 18 x ^^^ shr32 3 x

def smallSigma1 (x : Nat) : Nat := rotr32 17 x ^^^ rotr32 19 x ^^^ shr32 10 x

/-- The SHA-256 round constants. -/
def sha256K : List Nat :=
  [1116352408, 1899447441, 3049323471, 3921009573, 961987163,
   1508970993, 2453635748, 2870763221, 3624381080, 310598401,
   607225278, 1426881987, 1925078388, 2162078206, 2614888103,
   3248222580, 3835390401, 4022224774, 264347078, 604807628,
   770255983, 1249150122, 1555081692, 1996064986, 2554220882,
   2821834349, 2952996808, 3210313671, 3336571891, 3584528711,
   113926993, 338241895, 666307205, 773529912, 1294757372,
   1396182291, 1695183700, 1986661051, 2177026350, 2456956037,
   2730485921, 2820302411, 3259730800, 3345764771, 3516065817,
   3600352804, 4094571909, 275423344, 430227734, 506948616,
   659060556, 883997877, 958139571, 1322822218, 1537002063,
   1747873779, 1955562222, 2024104815, 2227730452, 2361852424,
   2428436474, 2756734187, 3204031479, 3329325298]

/-- The SHA-256 initial hash value. -/
def sha256H0 : List Nat :=
  [1779033703, 3144134277, 1013904242, 2773480762,
   1359893119, 2600822924, 528734635, 1541459225]

/-- Big-endian byte representation of `n` in `width` bytes. -/
def beBytes : Nat → Nat → List Nat
  | 0, _ => []
  | width + 1, n => beBytes width (n / 256) ++ [n % 256]

/-- SHA-256 message padding: `0x80`, zeros to 56 mod 64, then the bit
length in 8 big-endian bytes. -/
def sha256Pad (msg : List Nat) : List Nat :=
  msg ++ [0x80] ++ List.replicate ((119 - msg.length % 64) % 64) 0
    ++ beBytes 8 (msg.length * 8)

/-- Big-endian 32-bit words from bytes (length assumed a multiple of 4). -/
def wordsOfBytes : List Nat → List Nat
  | a :: b :: c :: d :: rest =>
    (a * 2 ^ 24 + b * 2 ^ 16 + c * 2 ^ 8 + d) :: wordsOfBytes rest
  | _ => []

/-- Big-endian bytes of a 32-bit word. -/
def wordBytes (w : Nat) : List Nat :=
  [w / 2 ^ 24 % 256, w / 2 ^ 16 % 256, w / 2 ^ 8 % 256, w % 256]

/-- Split a word list into 16-word blocks. -/
def blocks16 (ws : List Nat) : List (List Nat) :=
  if h : ws = [] then []
  else ws.take 16 :: blocks16 (ws.drop 16)
termination_by ws.length
decreasing_by
  simp only [List.length_drop]
  have : 0 < ws.length := List.length_pos.2 h
  omega

/-- The 64-entry SHA-256 message schedule of one block. -/
def sha256Schedule (block : List Nat) : List Nat :=
  (List.range 64).foldl
    (fun w t =>
      if t < 16 then w ++ [block.getD t 0]
      else
        w ++ [add32 (add32 (smallSigma1 (w.getD (t - 2) 0)) (w.getD (t - 7) 0))
                (add32 (smallSigma0 (w.getD (t - 15) 0)) (w.getD (t - 16) 0))])
    []

/-- One SHA-256 compression step over the eight working variables. -/
def sha256Round (k wt : Nat)
    (s : Nat × Nat × Nat × Nat × Nat × Nat × Nat × Nat) :
    Nat × Nat × Nat × Nat × Nat × Nat × Nat × Nat :=
  match s with
  | (a, b, c, d, e, f, g, h) =>
    let T1 := add32 h (add32 (bigSigma1 e) (add32 (shaCh e f g) (add32 k wt)))
    let T2 := add32 (bigSigma0 a) (shaMaj a b c)
    (add32 T1 T2, a, b, c, add32 d T1, e, f, g)

/-- SHA-256 compression of one block into the chaining value. -/
def sha256Compress (hv : List Nat) (block : List Nat) : List Nat :=
  let w := sha256Schedule block
  let init := (hv.getD 0 0, hv.getD 1 0, hv.getD 2 0, hv.getD 3 0,
               hv.getD 4 0, hv.getD 5 0, hv.getD 6 0, hv.getD 7 0)
  match (List.range 64).foldl
      (fun s t => sha256Round (sha256K.getD t 0) (w.getD t 0) s) init with
  | (a, b, c, d, e, f, g, h) =>
    [add32 (hv.getD 0 0) a, add32 (hv.getD 1 0) b, add32 (hv.getD 2 0) c,
     add32 (hv.getD 3 0) d, add32 (hv.getD 4 0) e, add32 (hv.getD 5 0) f,
     add32 (hv.getD 6 0) g, add32 (hv.getD 7 0) h]

/-- SHA-256 of a byte list, as 32 bytes. -/
def sha256 (msg : List Nat) : List Nat :=
  ((blocks16 (wordsOfBytes (sha256Pad msg))).foldl sha256Compress
    sha256H0).flatMap wordBytes

/-- HMAC-SHA256 (RFC 2104, block size 64). -/
def hmacSha256 (key msg : List Nat) : List Nat :=
  let k0 := if 64 < key.length then sha256 key else key
  let k1 := k0 ++ List.replicate (64 - k0.length) 0
  sha256 (k1.map (fun b => b ^^^ 0x5c) ++ sha256 (k1.map (fun b => b ^^^ 0x36) ++ msg))

/-- The xor-accumulation loop of PBKDF2: `n` further iterations from the
current `u`, accumulating into `acc`. -/
def pbkdf2Loop (pw : List Nat) : Nat → List Nat → List Nat → List Nat
  | 0, _, acc => acc
  | n + 1, u, acc =>
    let u2 := hmacSha256 pw u
    pbkdf2Loop pw n u2 (List.zipWith (fun a b => a ^^^ b) acc u2)

/-- Model of `hashlib.pbkdf2_hmac("sha256", pw, salt, iterations)` with the default
32-byte derived key length (a single PBKDF2 block):
`U1 = HMAC(pw, salt || 0x00000001)`, `Ui = HMAC(pw, U(i-1))`, output
`U1 xor ... xor U(iterations)`. -/
def pbkdf2HmacSha256 (iterations : Nat) (pw salt : List Nat) : List Nat :=
  let u1 := hmacSha256 pw (salt ++ beBytes 4 1)
  pbkdf2Loop pw (iterations - 1) u1 u1

/-- UTF-8 encoding of one character (`str.encode()`). -/
def utf8Char (c : Char) : List Nat :=
  let n := c.toNat
  if n < 0x80 then [n]
  else if n < 0x800 then [0xC0 + n / 64, 0x80 + n % 64]
  else if n < 0x10000 then
    [0xE0 + n / 4096, 0x80 + n / 64 % 64, 0x80 + n % 64]
  else
    [0xF0 + n / 262144, 0x80 + n / 4096 % 64, 0x80 + n / 64 % 64, 0x80 + n % 64]

/-- UTF-8 encoding of a string (`str.encode()`). -/
def utf8Encode (s : String) : List Nat := s.data.flatMap utf8Char

/-- The hexadecimal digit characters used by `bytes.hex()`. -/
def nibbleChar (n : Nat) : Char := "0123456789abcdef".data.getD n '0'

/-- Model of `bytes.hex()`: two lowercase hex digits per byte. -/
def bytesToHex (bs : List Nat) : List Char :=
  bs.flatMap (fun b => [nibbleChar (b / 16), nibbleChar (b % 16)])

/-! ## user.py: hash_password / verify_password -/

/-- Function `user.hash_password` with the salt supplied (the `salt is None` branch
draws a fresh random salt and is covered by quantifying over salts):
PBKDF2-HMAC-SHA256 with 600000 iterations of the UTF-8-encoded password
and salt, hex-encoded, returned with the salt. -/
def hash_password (password salt : String) : String × String :=
  (String.mk (bytesToHex
      (pbkdf2HmacSha256 600000 (utf8Encode password) (utf8Encode salt))),
   salt)

/-- The stored-hash format written by `User.create` / `User.set_password`:
the f-string `pbkdf2:sha256:600000$` followed by salt, `$`, and hash. -/
def stored_password_hash (password salt : String) : String :=
  "pbkdf2:sha256:600000$" ++ salt ++ "$" ++ (hash_password password salt).1

/-- Python `str.split(sep)` for a single-character separator: splits at
every occurrence, keeping empty pieces. -/
def pySplitOn (sep : Char) : List Char → List (List Char)
  | [] => [[]]
  | c :: cs =>
    if c = sep then [] :: pySplitOn sep cs
    else
      match pySplitOn sep cs with
      | [] => [[c]]
      | p :: ps => (c :: p) :: ps

/-- Function `user.verify_password`: split the stored string on `$`; anything but
exactly three parts, or an algorithm tag other than the literal
`pbkdf2:sha256:600000`, returns `False`; otherwise the hash is recomputed
with the extracted salt (and the hard-coded 600000 iterations inside
`hash_password`) and compared by `secrets.compare_digest`.  The
`try/except` in the source catches only `ValueError` and `AttributeError`;
the `TypeError` that `compare_digest` raises on non-ASCII strings
propagates, which the `Except` layer records as `.error ()`. -/
def verify_password (password stored_hash : String) : Except Unit Bool :=
  match pySplitOn '$' stored_hash.data with
  | [algorithm_info, salt, expected_hash] =>
    if algorithm_info = "pbkdf2:sha256:600000".data then
      compare_digest (hash_password password (String.mk salt)).1
        (String.mk expected_hash)
    else .ok false
  | _ => .ok false

/-! ## structural lemmas about the hashing embedding -/
lemma mem_zipXor {x : Nat} : ∀ {as bs : List Nat},
    x ∈ List.zipWith (fun a b => a ^^^ b) as bs →
    ∃ a ∈ as, ∃ b ∈ bs, x = a ^^^ b := by
  intro as
  induction as with
  | nil => intro bs h; simp at h
  | cons a as ih =>
    intro bs h
    cases bs with
    | nil => simp at h
    | cons b bs =>
      simp only [List.zipWith_cons_cons, List.mem_cons] at h
      rcases h with rfl | h
      · exact ⟨a, by simp, b, by simp, rfl⟩
      · rcases ih h with ⟨a2, ha, b2, hb, rfl⟩
        exact ⟨a2, by simp [ha], b2, by simp [hb], rfl⟩

lemma nibbleChar_ne_dollar (n : Nat) : nibbleChar n ≠ '$' := by
  unfold nibbleChar
  rcases Nat.lt_or_ge n 16 with h | h
  · interval_cases n <;> decide
  · rw [List.getD_eq_default]
    · decide
    · simpa using h

lemma nibbleChar_ascii (n : Nat) : (nibbleChar n).toNat < 128 := by
  unfold nibbleChar
  rcases Nat.lt_or_ge n 16 with h | h
  · interval_cases n <;> decide
  · rw [List.getD_eq_default]
    · decide
    · simpa using h

lemma nibbleChar_inj {m n : Nat} (hm : m < 16) (hn : n < 16)
    (h : nibbleChar m = nibbleChar n) : m = n := by
  unfold nibbleChar at h
  interval_cases m <;> interval_cases n <;> simp_all

lemma mem_bytesToHex {c : Char} {bs : List Nat} (h : c ∈ bytesToHex bs) :
    ∃ n, c = nibbleChar n := by
  unfold bytesToHex at h
  rcases List.mem_flatMap.1 h with ⟨b, _, hc⟩
  simp only [List.mem_cons, List.mem_singleton] at hc
  rcases hc with rfl | rfl | h
  · exact ⟨b / 16, rfl⟩
  · exact ⟨b % 16, rfl⟩
  · simp at h

lemma dollar_not_mem_bytesToHex (bs : List Nat) : '$' ∉ bytesToHex bs := by
  intro h
  rcases mem_bytesToHex h with ⟨n, hn⟩
  exact nibbleChar_ne_dollar n hn.symm

lemma bytesToHex_isAscii (bs : List Nat) :
    isAsciiStr (String.mk (bytesToHex bs)) = true := by
  unfold isAsciiStr
  rw [List.all_eq_true]
  intro c hc
  rcases mem_bytesToHex hc with ⟨n, rfl⟩
  simpa using nibbleChar_ascii n

lemma bytesToHex_inj : ∀ {as bs : List Nat},
    (∀ a ∈ as, a < 256) → (∀ b ∈ bs, b < 256) →
    bytesToHex as = bytesToHex bs → as = bs := by
  intro as
  induction as with
  | nil =>
    intro bs _ _ h
    cases bs with
    | nil => rfl
    | cons b bs => simp [bytesToHex] at h
  | cons a as ih =>
    intro bs ha hb h
    cases bs with
    | nil => simp [bytesToHex] at h
    | cons b bs =>
      simp only [bytesToHex, List.flatMap_cons, List.cons_append, List.nil_append,
        List.cons.injEq] at h
      rcases h with ⟨h1, h2, h3⟩
      have hab : a < 256 := ha a (by simp)
      have hbb : b < 256 := hb b (by simp)
      have e1 : a / 16 = b / 16 :=
        nibbleChar_inj (by omega) (by omega) h1
      have e2 : a % 16 = b % 16 :=
        nibbleChar_inj (by omega) (by omega) h2
      have : a = b := by omega
      subst this
      have : as = bs := by
        apply ih (fun x hx => ha x (by simp [hx])) (fun x hx => hb x (by simp [hx]))
        exact h3
      rw [this]

lemma pySplitOn_ne_nil (sep : Char) : ∀ l : List Char, pySplitOn sep l ≠ [] := by
  intro l
  cases l with
  | nil => simp [pySplitOn]
  | cons c cs =>
    unfold pySplitOn
    split
    · simp
    · split <;> simp

lemma pySplitOn_not_mem {sep : Char} : ∀ {l : List Char}, sep ∉ l →
    pySplitOn sep l = [l] := by
  intro l
  induction l with
  | nil => intro; rfl
  | cons c cs ih =>
    intro h
    have hc : ¬c = sep := fun e => h (by simp [e])
    have hcs : sep ∉ cs := fun e => h (by simp [e])
    rw [pySplitOn.eq_2, if_neg hc, ih hcs]

lemma pySplitOn_append {sep : Char} : ∀ {l₁ : List Char} (l₂ : List Char),
    sep ∉ l₁ → pySplitOn sep (l₁ ++ sep :: l₂) = l₁ :: pySplitOn sep l₂ := by
  intro l₁
  induction l₁ with
  | nil =>
    intro l₂ _
    simp only [List.nil_append]
    rw [pySplitOn.eq_2, if_pos rfl]
  | cons c cs ih =>
    intro l₂ h
    have hc : ¬c = sep := fun e => h (by simp [e])
    have hcs : sep ∉ cs := fun e => h (by simp [e])
    simp only [List.cons_append]
    rw [pySplitOn.eq_2, if_neg hc, ih l₂ hcs]

lemma mem_wordBytes_lt {b w : Nat} (h : b ∈ wordBytes w) : b < 256 := by
  simp only [wordBytes, List.mem_cons, List.mem_singleton] at h
  rcases h with rfl | rfl | rfl | rfl | h
  · omega
  · omega
  · omega
  · omega
  · simp at h

lemma sha256_lt {b : Nat} {m : List Nat} (h : b ∈ sha256 m) : b < 256 := by
  unfold sha256 at h
  rcases List.mem_flatMap.1 h with ⟨w, _, hw⟩
  exact mem_wordBytes_lt hw

lemma pbkdf2Loop_lt (pw : List Nat) : ∀ (n : Nat) (u acc : List Nat),
    (∀ b ∈ acc, b < 256) → ∀ b ∈ pbkdf2Loop pw n u acc, b < 256 := by
  intro n
  induction n with
  | zero => intro u acc hacc b hb; exact hacc b hb
  | succ n ih =>
    intro u acc hacc b hb
    unfold pbkdf2Loop at hb
    apply ih _ _ _ b hb
    intro x hx
    rcases mem_zipXor hx with ⟨p, hp, q, hq, rfl⟩
    have h1 : p < 2 ^ 8 := hacc p hp
    have h2 : q < 2 ^ 8 := sha256_lt hq
    exact Nat.xor_lt_two_pow h1 h2

lemma pbkdf2_lt {b : Nat} {it : Nat} {pw salt : List Nat}
    (h : b ∈ pbkdf2HmacSha256 it pw salt) : b < 256 := by
  unfold pbkdf2HmacSha256 at h
  apply pbkdf2Loop_lt pw _ _ _ _ b h
  intro x hx
  exact sha256_lt hx

lemma compare_digest_hex (A B : List Nat) (hA : ∀ a ∈ A, a < 256)
    (hB : ∀ b ∈ B, b < 256) :
    compare_digest (String.mk (bytesToHex A)) (String.mk (bytesToHex B))
      = .ok (A == B) := by
  unfold compare_digest
  rw [bytesToHex_isAscii A, bytesToHex_isAscii B]
  simp only [if_true]
  by_cases h : A = B
  · subst h
    simp
  · have h1 : bytesToHex A ≠ bytesToHex B := fun hh => h (bytesToHex_inj hA hB hh)
    have h2 : String.mk (bytesToHex A) ≠ String.mk (bytesToHex B) :=
      fun hh => h1 (congrArg String.data hh)
    rw [beq_eq_false_iff_ne.2 h2, beq_eq_false_iff_ne.2 h]


lemma verify_password_of_parts {stored : String} (p : String)
    (alg salt exp : List Char)
    (h : pySplitOn '$' stored.data = [alg, salt, exp]) :
    verify_password p stored
      = if alg = "pbkdf2:sha256:600000".data then
          compare_digest (hash_password p (String.mk salt)).1 (String.mk exp)
        else .ok false := by
  unfold verify_password
  rw [h]

/-- C4 (amended): for every password `p` and salt `s` containing no
dollar character, verifying a candidate password `p2` against the stored
string produced by hashing `p` with `s` succeeds exactly when the PBKDF2
hash derived from `p2` equals the one derived from `p`; in particular
`verify(p, hash_of(p))` is true, and a different password is rejected
whenever its derived hash differs (which is not unconditionally guaranteed
for a 256-bit hash, hence the stated condition). -/
theorem C4_verify_iff_hash_eq (p p2 s : String) (hs : '$' ∉ s.data) :
    verify_password p2 (stored_password_hash p s)
      = .ok (pbkdf2HmacSha256 600000 (utf8Encode p2) (utf8Encode s)
          == pbkdf2HmacSha256 600000 (utf8Encode p) (utf8Encode s)) := by
  have hdata : (stored_password_hash p s).data
      = "pbkdf2:sha256:600000".data ++ '$' :: (s.data ++ '$' ::
          bytesToHex (pbkdf2HmacSha256 600000 (utf8Encode p) (utf8Encode s))) := by
    simp [stored_password_hash, hash_password, String.data_append]
  rw [verify_password_of_parts p2 _ _ _
    (by rw [hdata, pySplitOn_append _ (by decide), pySplitOn_append _ hs,
      pySplitOn_not_mem (dollar_not_mem_bytesToHex _)])]
  rw [if_pos rfl]
  have : (hash_password p2 (String.mk s.data)).1
      = String.mk (bytesToHex (pbkdf2HmacSha256 600000 (utf8Encode p2) (utf8Encode s))) := rfl
  rw [this]
  exact compare_digest_hex _ _ (fun a ha => pbkdf2_lt ha) (fun b hb => pbkdf2_lt hb)

lemma verify_password_of_four {stored : String} (p : String)
    (a b c d : List Char) (rest : List (List Char))
    (h : pySplitOn '$' stored.data = a :: b :: c :: d :: rest) :
    verify_password p stored = .ok false := by
  unfold verify_password
  rw [h]

/-- C4 counterexample: with the salt `"$"`, the stored string produced by
hashing splits into four dollar-separated parts, so verifying the very
password that produced it returns `False`, contradicting the claim that
`verify(password, hash_of(password, salt))` is true for every salt. -/
theorem C4_dollar_salt_counterexample :
    verify_password "pw" (stored_password_hash "pw" "$") = .ok false := by
  have hdata : (stored_password_hash "pw" "$").data
      = "pbkdf2:sha256:600000".data ++ '$' :: ([] ++ '$' :: ([] ++ '$' ::
          bytesToHex (pbkdf2HmacSha256 600000 (utf8Encode "pw") (utf8Encode "$")))) := by
    simp [stored_password_hash, hash_password, String.data_append]
  exact verify_password_of_four _ _ _ _ _ _
    (by rw [hdata, pySplitOn_append _ (by decide), pySplitOn_append _ (by decide),
      pySplitOn_append _ (by decide), pySplitOn_not_mem (dollar_not_mem_bytesToHex _)])


/-- C5: the code is wrong where the claim says no exception can escape.
On the malformed stored string `pbkdf2:sha256:600000$ab$ÿ` (well-formed
shape, non-ASCII hash part) the recomputed hex hash is ASCII but the
expected part is not, so `secrets.compare_digest` raises `TypeError`,
which the `except (ValueError, AttributeError)` clause does not catch:
the exception escapes instead of `False` being returned. -/
theorem C5_typeerror_escapes :
    verify_password "pw" "pbkdf2:sha256:600000$ab$ÿ" = .error () := by
  have hsplit : pySplitOn '$' ("pbkdf2:sha256:600000$ab$ÿ").data
      = ["pbkdf2:sha256:600000".data, "ab".data, "ÿ".data] := by decide
  rw [verify_password_of_parts _ _ _ _ hsplit, if_pos rfl]
  show compare_digest (String.mk (bytesToHex
      (pbkdf2HmacSha256 600000 (utf8Encode "pw") (utf8Encode "ab")))) _ = _
  unfold compare_digest
  rw [bytesToHex_isAscii]
  simp only [if_true]
  rw [if_neg (by decide)]

lemma algo_prefix_split : "pbkdf2:sha256:600000".data
    = "pbkdf2:sha256:".data ++ "600000".data := by decide

/-- C6 (amended): `verify_password` does not extract the iteration count
from the stored string.  For a stored string whose iteration field is the
dollar-free string `cs` and whose hash part was derived with `c`
iterations, verification first requires the algorithm tag to be literally
`pbkdf2:sha256:600000` (so any `cs` other than `600000` is rejected with
`False`), and then recomputes the hash with the hard-coded 600000
iterations, succeeding exactly when that recomputation matches the stored
hash. -/
theorem C6_only_hardcoded_iterations (cs : String) (c : Nat) (p s : String)
    (hcs : '$' ∉ cs.data) (hs : '$' ∉ s.data) :
    verify_password p ("pbkdf2:sha256:" ++ cs ++ "$" ++ s ++ "$" ++
        String.mk (bytesToHex (pbkdf2HmacSha256 c (utf8Encode p) (utf8Encode s))))
      = .ok (if cs == "600000"
          then pbkdf2HmacSha256 600000 (utf8Encode p) (utf8Encode s)
            == pbkdf2HmacSha256 c (utf8Encode p) (utf8Encode s)
          else false) := by
  have hdata : ("pbkdf2:sha256:" ++ cs ++ "$" ++ s ++ "$" ++
        String.mk (bytesToHex (pbkdf2HmacSha256 c (utf8Encode p) (utf8Encode s)))).data
      = ("pbkdf2:sha256:".data ++ cs.data) ++ '$' :: (s.data ++ '$' ::
          bytesToHex (pbkdf2HmacSha256 c (utf8Encode p) (utf8Encode s))) := by
    simp [String.data_append]
  have hnod : '$' ∉ "pbkdf2:sha256:".data ++ cs.data := by
    intro hmem
    rcases List.mem_append.1 hmem with h | h
    · revert h; decide
    · exact hcs h
  rw [verify_password_of_parts p _ _ _
    (by rw [hdata, pySplitOn_append _ hnod, pySplitOn_append _ hs,
      pySplitOn_not_mem (dollar_not_mem_bytesToHex _)])]
  by_cases h6 : cs = "600000"
  · subst h6
    rw [if_pos (by decide), if_pos (by simp)]
    have : (hash_password p (String.mk s.data)).1
        = String.mk (bytesToHex
            (pbkdf2HmacSha256 600000 (utf8Encode p) (utf8Encode s))) := rfl
    rw [this]
    exact compare_digest_hex _ _ (fun a ha => pbkdf2_lt ha) (fun b hb => pbkdf2_lt hb)
  · have hne : "pbkdf2:sha256:".data ++ cs.data ≠ "pbkdf2:sha256:600000".data := by
      rw [algo_prefix_split]
      intro hh
      exact h6 (congrArg String.mk (List.append_cancel_left hh))
    rw [if_neg hne, if_neg (by simpa using h6)]

/-- C6 counterexample: a well-formed stored string with iteration count
100000 whose hash part is correctly derived with 100000 iterations is
rejected (`False`), contradicting the claim that verification recomputes
with the extracted count and returns true. -/
theorem C6_iteration_count_counterexample :
    verify_password "pw" ("pbkdf2:sha256:100000$ab$" ++
        String.mk (bytesToHex (pbkdf2HmacSha256 100000 (utf8Encode "pw") (utf8Encode "ab"))))
      = .ok false := by
  have hdata : ("pbkdf2:sha256:100000$ab$" ++
        String.mk (bytesToHex (pbkdf2HmacSha256 100000 (utf8Encode "pw") (utf8Encode "ab")))).data
      = "pbkdf2:sha256:100000".data ++ '$' :: ("ab".data ++ '$' ::
          bytesToHex (pbkdf2HmacSha256 100000 (utf8Encode "pw") (utf8Encode "ab"))) := by
    simp [String.data_append]
  rw [verify_password_of_parts _ _ _ _
    (by rw [hdata, pySplitOn_append _ (by decide), pySplitOn_append _ (by decide),
      pySplitOn_not_mem (dollar_not_mem_bytesToHex _)])]
  rw [if_neg (by decide)]


/-! ## CPython token generators used by `auth.create_session`

`create_session` draws `session_id = str(uuid.uuid4())` and
`csrf_token = secrets.token_urlsafe(32)`.  Both are modelled as functions of
their random byte input (`os.urandom`), so the set of values each generator
can produce is the image of that function over all byte inputs. -/

/-- The bit fiddling CPython `uuid.UUID(bytes=os.urandom(16), version=4)`
performs on the 128-bit integer formed from the random bytes:
`int &= ~(0xc000 << 48); int |= 0x8000 << 48` (variant) and
`int &= ~(0xf000 << 64); int |= 0x4000 << 64` (version).  For
`0 ≤ r < 2 ^ 128`, the Python value `r & ~m` equals `r &&& (2 ^ 128 - 1 - m)`,
because the two operands agree on the low 128 bits and `r` has no higher
bits. -/
def uuid4SetBits (r : Nat) : Nat :=
  ((r &&& (2 ^ 128 - 1 - (0xc000 <<< 48)) ||| (0x8000 <<< 48))
      &&& (2 ^ 128 - 1 - (0xf000 <<< 64))) ||| (0x4000 <<< 64)

/-- Fixed-width big-endian hexadecimal digits of `n` (CPython `%032x`
formatting when the width is 32). -/
def hexFixed : Nat → Nat → List Char
  | 0, _ => []
  | w + 1, n => hexFixed w (n / 16) ++ [nibbleChar (n % 16)]

/-- Model of `str(uuid.UUID(int=n))`: the 32 hex digits grouped 8-4-4-4-12 with
dashes. -/
def uuidStr (n : Nat) : String :=
  let h := hexFixed 32 n
  String.mk (h.take 8 ++ '-' :: ((h.drop 8).take 4 ++ '-' ::
    ((h.drop 12).take 4 ++ '-' :: ((h.drop 16).take 4 ++ '-' :: h.drop 20))))

/-- Every session-id string `str(uuid.uuid4())` can produce, over the
`2 ^ 128` possible values of the 16 random bytes (identified with their
big-endian integer). -/
def sessionIdSpace : Finset String :=
  (Finset.range (2 ^ 128)).image (fun r => uuidStr (uuid4SetBits r))

/-- The URL-safe base64 alphabet of RFC 4648, used by
`base64.urlsafe_b64encode`. -/
def b64urlChar (n : Fin 64) : Char :=
  "ABCDEFGHIJKLMNOPQRSTUVWXYZabcdefghijklmnopqrstuvwxyz0123456789-_".data.getD n.val '+'

/-- Base64 six-bit groups of a byte list, including the partial final
group (the value CPython pads with `=` before `token_urlsafe` strips the
padding again). -/
def sextetsOfBytes : List (Fin 256) → List (Fin 64)
  | [] => []
  | [a] =>
    [⟨a.val / 4, by have := a.isLt; omega⟩,
     ⟨a.val % 4 * 16, by have := a.isLt; omega⟩]
  | [a, b] =>
    [⟨a.val / 4, by have := a.isLt; omega⟩,
     ⟨a.val % 4 * 16 + b.val / 16, by have := a.isLt; have := b.isLt; omega⟩,
     ⟨b.val % 16 * 4, by have := b.isLt; omega⟩]
  | a :: b :: c :: rest =>
    ⟨a.val / 4, by have := a.isLt; omega⟩ ::
    ⟨a.val % 4 * 16 + b.val / 16, by have := a.isLt; have := b.isLt; omega⟩ ::
    ⟨b.val % 16 * 4 + c.val / 64, by have := b.isLt; have := c.isLt; omega⟩ ::
    ⟨c.val % 64, by have := c.isLt; omega⟩ :: sextetsOfBytes rest

/-- Decoder of `sextetsOfBytes`, used to prove the encoding injective. -/
def bytesOfSextets : List (Fin 64) → List (Fin 256)
  | [] => []
  | [_] => []
  | [x, y] => [⟨x.val * 4 + y.val / 16, by have := x.isLt; have := y.isLt; omega⟩]
  | [x, y, z] =>
    [⟨x.val * 4 + y.val / 16, by have := x.isLt; have := y.isLt; omega⟩,
     ⟨y.val % 16 * 16 + z.val / 4, by have := y.isLt; have := z.isLt; omega⟩]
  | x :: y :: z :: w :: rest =>
    ⟨x.val * 4 + y.val / 16, by have := x.isLt; have := y.isLt; omega⟩ ::
    ⟨y.val % 16 * 16 + z.val / 4, by have := y.isLt; have := z.isLt; omega⟩ ::
    ⟨z.val % 4 * 64 + w.val, by have := z.isLt; have := w.isLt; omega⟩ ::
    bytesOfSextets rest

/-- Model of `secrets.token_urlsafe` on a given random byte string:
`base64.urlsafe_b64encode(bytes).rstrip(b"=").decode("ascii")`. -/
def token_urlsafe_bytes (bs : List (Fin 256)) : String :=
  String.mk ((((sextetsOfBytes bs).map b64urlChar
      ++ List.replicate ((3 - bs.length % 3) % 3) '=').reverse.dropWhile
        (fun c => c == '=')).reverse)

/-- Every csrf-token string `secrets.token_urlsafe(32)` can produce, over
the `256 ^ 32` possible values of the 32 random bytes. -/
def csrfTokenSpace : Finset String :=
  (Finset.univ : Finset (Fin 32 → Fin 256)).image
    (fun f => token_urlsafe_bytes (List.ofFn f))

/-! ## lemmas about the token generators -/
lemma bytesOfSextets_sextetsOfBytes : ∀ l : List (Fin 256),
    bytesOfSextets (sextetsOfBytes l) = l := by
  have key : ∀ (n : Nat) (l : List (Fin 256)), l.length ≤ n →
      bytesOfSextets (sextetsOfBytes l) = l := by
    intro n
    induction n with
    | zero =>
      intro l hl
      rw [List.length_eq_zero.1 (Nat.le_zero.1 hl)]
      rfl
    | succ n ih =>
      intro l hl
      match l with
      | [] => rfl
      | [a] =>
        show bytesOfSextets [_, _] = [a]
        unfold bytesOfSextets
        have ha := a.isLt
        congr 1
        apply Fin.ext
        show (a.val / 4) * 4 + (a.val % 4 * 16) / 16 = a.val
        omega
      | [a, b] =>
        show bytesOfSextets [_, _, _] = [a, b]
        unfold bytesOfSextets
        have ha := a.isLt
        have hb := b.isLt
        congr 1
        · apply Fin.ext
          show (a.val / 4) * 4 + (a.val % 4 * 16 + b.val / 16) / 16 = a.val
          omega
        · congr 1
          apply Fin.ext
          show (a.val % 4 * 16 + b.val / 16) % 16 * 16 + (b.val % 16 * 4) / 4 = b.val
          omega
      | a :: b :: c :: rest =>
        have ha := a.isLt
        have hb := b.isLt
        have hc := c.isLt
        have hrest : rest.length ≤ n := by
          simp only [List.length_cons] at hl
          omega
        show bytesOfSextets (_ :: _ :: _ :: _ :: sextetsOfBytes rest) = a :: b :: c :: rest
        unfold bytesOfSextets
        rw [ih rest hrest]
        congr 1
        · apply Fin.ext
          show (a.val / 4) * 4 + (a.val % 4 * 16 + b.val / 16) / 16 = a.val
          omega
        congr 1
        · apply Fin.ext
          show (a.val % 4 * 16 + b.val / 16) % 16 * 16
              + (b.val % 16 * 4 + c.val / 64) / 4 = b.val
          omega
        congr 1
        apply Fin.ext
        show (b.val % 16 * 4 + c.val / 64) % 4 * 64 + c.val % 64 = c.val
        omega
  intro l
  exact key l.length l le_rfl

lemma sextetsOfBytes_injective : Function.Injective sextetsOfBytes :=
  Function.LeftInverse.injective bytesOfSextets_sextetsOfBytes

lemma b64urlChar_ne_eq (n : Fin 64) : b64urlChar n ≠ '=' := by
  revert n
  decide

lemma b64urlChar_injective : Function.Injective b64urlChar := by
  intro a b h
  revert h
  revert a b
  decide

lemma dropWhile_eq_of_head {p : Char → Bool} :
    ∀ {l : List Char}, (∀ c ∈ l, p c = false) → List.dropWhile p l = l := by
  intro l h
  cases l with
  | nil => rfl
  | cons c cs =>
    rw [List.dropWhile_cons, h c (by simp)]
    simp

lemma strip_pad (l : List Char) (hl : ∀ c ∈ l, c ≠ '=') (k : Nat) :
    (((l ++ List.replicate k '=').reverse.dropWhile (fun c => c == '=')).reverse) = l := by
  rw [List.reverse_append, List.reverse_replicate]
  have h1 : ∀ (m : Nat),
      List.dropWhile (fun c => c == '=') (List.replicate m '=' ++ l.reverse)
        = List.dropWhile (fun c => c == '=') l.reverse := by
    intro m
    induction m with
    | zero => rfl
    | succ m ih =>
      rw [List.replicate_succ, List.cons_append, List.dropWhile_cons]
      simp only [beq_self_eq_true, if_true]
      exact ih
  rw [h1, dropWhile_eq_of_head (by
    intro c hc
    have : c ≠ '=' := hl c (List.mem_reverse.1 hc)
    simpa using this), List.reverse_reverse]

lemma token_urlsafe_bytes_injective : Function.Injective token_urlsafe_bytes := by
  intro b1 b2 h
  have h1 : (((sextetsOfBytes b1).map b64urlChar
      ++ List.replicate ((3 - b1.length % 3) % 3) '=').reverse.dropWhile
        (fun c => c == '=')).reverse
      = (((sextetsOfBytes b2).map b64urlChar
      ++ List.replicate ((3 - b2.length % 3) % 3) '=').reverse.dropWhile
        (fun c => c == '=')).reverse := congrArg String.data h
  rw [strip_pad _ (by
      intro c hc
      rcases List.mem_map.1 hc with ⟨n, _, rfl⟩
      exact b64urlChar_ne_eq n),
    strip_pad _ (by
      intro c hc
      rcases List.mem_map.1 hc with ⟨n, _, rfl⟩
      exact b64urlChar_ne_eq n)] at h1
  exact sextetsOfBytes_injective
    (List.map_injective_iff.2 b64urlChar_injective h1)

lemma csrfTokenSpace_card : csrfTokenSpace.card = 2 ^ 256 := by
  unfold csrfTokenSpace
  rw [show (fun f : Fin 32 → Fin 256 => token_urlsafe_bytes (List.ofFn f))
      = token_urlsafe_bytes ∘ List.ofFn from rfl,
    Finset.card_image_of_injective _
      (token_urlsafe_bytes_injective.comp List.ofFn_injective)]
  rw [Finset.card_univ, Fintype.card_fun]
  simp only [Fintype.card_fin]
  norm_num

lemma uuid4SetBits_bit62 (r : Nat) : (uuid4SetBits r).testBit 62 = false := by
  unfold uuid4SetBits
  simp only [Nat.testBit_lor, Nat.testBit_land]
  rw [show Nat.testBit (2 ^ 128 - 1 - (0xc000 <<< 48)) 62 = false from by decide,
    show Nat.testBit (0x8000 <<< 48) 62 = false from by decide,
    show Nat.testBit (2 ^ 128 - 1 - (0xf000 <<< 64)) 62 = true from by decide,
    show Nat.testBit (0x4000 <<< 64) 62 = false from by decide]
  simp

lemma uuid4SetBits_bit63 (r : Nat) : (uuid4SetBits r).testBit 63 = true := by
  unfold uuid4SetBits
  simp only [Nat.testBit_lor, Nat.testBit_land]
  rw [show Nat.testBit (0x8000 <<< 48) 63 = true from by decide,
    show Nat.testBit (2 ^ 128 - 1 - (0xf000 <<< 64)) 63 = true from by decide]
  simp

lemma uuid4SetBits_bit76 (r : Nat) : (uuid4SetBits r).testBit 76 = false := by
  unfold uuid4SetBits
  simp only [Nat.testBit_lor, Nat.testBit_land]
  rw [show Nat.testBit (2 ^ 128 - 1 - (0xf000 <<< 64)) 76 = false from by decide,
    show Nat.testBit (0x4000 <<< 64) 76 = false from by decide]
  simp

lemma uuid4SetBits_bit77 (r : Nat) : (uuid4SetBits r).testBit 77 = false := by
  unfold uuid4SetBits
  simp only [Nat.testBit_lor, Nat.testBit_land]
  rw [show Nat.testBit (2 ^ 128 - 1 - (0xf000 <<< 64)) 77 = false from by decide,
    show Nat.testBit (0x4000 <<< 64) 77 = false from by decide]
  simp

lemma uuid4SetBits_bit78 (r : Nat) : (uuid4SetBits r).testBit 78 = true := by
  unfold uuid4SetBits
  simp only [Nat.testBit_lor, Nat.testBit_land]
  rw [show Nat.testBit (0x4000 <<< 64) 78 = true from by decide]
  simp

lemma uuid4SetBits_bit79 (r : Nat) : (uuid4SetBits r).testBit 79 = false := by
  unfold uuid4SetBits
  simp only [Nat.testBit_lor, Nat.testBit_land]
  rw [show Nat.testBit (2 ^ 128 - 1 - (0xf000 <<< 64)) 79 = false from by decide,
    show Nat.testBit (0x4000 <<< 64) 79 = false from by decide]
  simp

lemma uuid4SetBits_lt (r : Nat) (hr : r < 2 ^ 128) : uuid4SetBits r < 2 ^ 128 := by
  unfold uuid4SetBits
  apply Nat.or_lt_two_pow _ (by decide)
  apply Nat.lt_of_le_of_lt (Nat.and_le_left)
  apply Nat.or_lt_two_pow _ (by decide)
  apply Nat.lt_of_le_of_lt (Nat.and_le_left) hr

/-- Pack the 122 free bits of a uuid4 value. -/
def packFreeBits (y : Nat) : Nat :=
  y % 2 ^ 62 + y / 2 ^ 64 % 2 ^ 12 * 2 ^ 62 + y / 2 ^ 80 * 2 ^ 74

lemma fixed_bits_decompose (y : Nat) (hy : y < 2 ^ 128)
    (h62 : y.testBit 62 = false) (h63 : y.testBit 63 = true)
    (h76 : y.testBit 76 = false) (h77 : y.testBit 77 = false)
    (h78 : y.testBit 78 = true) (h79 : y.testBit 79 = false) :
    y = y % 2 ^ 62 + 2 ^ 63 + y / 2 ^ 64 % 2 ^ 12 * 2 ^ 64 + 2 ^ 78
        + y / 2 ^ 80 * 2 ^ 80 := by
  simp only [Nat.testBit_to_div_mod, decide_eq_false_iff_not, decide_eq_true_eq]
    at h62 h63 h76 h77 h78 h79
  omega

lemma packFreeBits_lt (y : Nat) (hy : y < 2 ^ 128) : packFreeBits y < 2 ^ 122 := by
  unfold packFreeBits
  omega

lemma uuid4_image_card_le :
    ((Finset.range (2 ^ 128)).image uuid4SetBits).card ≤ 2 ^ 122 := by
  have h := Finset.card_le_card_of_injOn packFreeBits
    (t := Finset.range (2 ^ 122))
    (fun y hy => by
      rcases Finset.mem_image.1 hy with ⟨r, hr, rfl⟩
      exact Finset.mem_range.2
        (packFreeBits_lt _ (uuid4SetBits_lt r (Finset.mem_range.1 hr))))
    (fun y1 h1 y2 h2 heq => by
      rcases Finset.mem_image.1 h1 with ⟨r1, hr1, e1⟩
      rcases Finset.mem_image.1 h2 with ⟨r2, hr2, e2⟩
      have hy1 : y1 < 2 ^ 128 := e1 ▸ uuid4SetBits_lt r1 (Finset.mem_range.1 hr1)
      have hy2 : y2 < 2 ^ 128 := e2 ▸ uuid4SetBits_lt r2 (Finset.mem_range.1 hr2)
      have d1 := fixed_bits_decompose y1 hy1 (e1 ▸ uuid4SetBits_bit62 r1)
        (e1 ▸ uuid4SetBits_bit63 r1) (e1 ▸ uuid4SetBits_bit76 r1)
        (e1 ▸ uuid4SetBits_bit77 r1) (e1 ▸ uuid4SetBits_bit78 r1)
        (e1 ▸ uuid4SetBits_bit79 r1)
      have d2 := fixed_bits_decompose y2 hy2 (e2 ▸ uuid4SetBits_bit62 r2)
        (e2 ▸ uuid4SetBits_bit63 r2) (e2 ▸ uuid4SetBits_bit76 r2)
        (e2 ▸ uuid4SetBits_bit77 r2) (e2 ▸ uuid4SetBits_bit78 r2)
        (e2 ▸ uuid4SetBits_bit79 r2)
      unfold packFreeBits at heq
      omega)
  simpa using h

lemma sessionIdSpace_card_le : sessionIdSpace.card ≤ 2 ^ 122 := by
  unfold sessionIdSpace
  calc ((Finset.range (2 ^ 128)).image (fun r => uuidStr (uuid4SetBits r))).card
      = (((Finset.range (2 ^ 128)).image uuid4SetBits).image uuidStr).card := by
        rw [Finset.image_image]
        rfl
    _ ≤ ((Finset.range (2 ^ 128)).image uuid4SetBits).card := Finset.card_image_le
    _ ≤ 2 ^ 122 := uuid4_image_card_le


/-! ## Claim theorems for the login cookie, middleware and feed layers -/

/-- C1: the code is wrong where the claim says the `session_id` cookie is
set to the session-id string.  `post_login` binds the whole
`(session_id, csrf_token)` pair returned by `create_session` to the name
`session_id` without unpacking it, so the cookie value is the string form
of the pair.  Concretely, with generated tokens `abc` and `def` against an
empty session table: the cookie value is `(\x27abc\x27, \x27def\x27)`, a
session lookup keyed by that cookie value finds nothing, while a lookup by
the actual session id `abc` would have returned the session row. -/
theorem C1_login_cookie_bug :
    (post_login_success 7 "abc" "def" (fun _ => none)).1 = "(\x27abc\x27, \x27def\x27)"
    ∧ get_session (post_login_success 7 "abc" "def" (fun _ => none)).1
        (post_login_success 7 "abc" "def" (fun _ => none)).2 = none
    ∧ get_session "abc" (post_login_success 7 "abc" "def" (fun _ => none)).2
        = some (7, "def") :=
  ⟨rfl, rfl, rfl⟩

/-- C2 counterexample: on a POST request whose session resolves and whose
`X-CSRFToken` header is present with the empty value, the middleware
returns the "token missing" 403 (because `if not client_token:` treats an
empty string like an absent header), while the policy exactly as claimed
would return "token invalid" for a present header whose value differs from
the stored token. -/
theorem C2_empty_header_counterexample :
    (CSRFMiddleware.dispatch (fun s => if s = "sid1" then some (1, "tok1") else none)
        { method := "POST", sessionCookie := some "sid1", xcsrfToken := some "" }
        baseHandler initState).1 = .ok .csrfMissing
    ∧ (csrfPolicyClaimed (fun s => if s = "sid1" then some (1, "tok1") else none)
        { method := "POST", sessionCookie := some "sid1", xcsrfToken := some "" }
        baseHandler initState).1 = .ok .csrfInvalid :=
  ⟨rfl, rfl⟩

/-- C2 (amended): for every session store, request, inner handler and
request state, `CSRFMiddleware.dispatch` implements exactly the amended
policy: safe methods and sessionless requests forward unchecked; with a
resolved session, an absent or empty `X-CSRFToken` header yields the
"token missing" 403, a non-empty ASCII header differing from the (ASCII)
stored token yields the "token invalid" 403, an equal value forwards, and
a non-ASCII value on either side raises `TypeError`. -/
theorem C2_dispatch_eq_amended_policy (store : SessionStore) (req : Request)
    (next : Handler) (st : ReqState) :
    CSRFMiddleware.dispatch store req next st = csrfPolicyAmended store req next st := by
  unfold CSRFMiddleware.dispatch csrfPolicyAmended compare_digest
  by_cases hm : req.method ∈ CSRF_SAFE_METHODS
  · simp [hm]
  · simp only [hm, if_false]
    rcases get_or_fetch_session store req st with ⟨r, st2⟩
    rcases r with _ | ⟨uid, tok⟩
    · rfl
    · rcases req.xcsrfToken with _ | t
      · rfl
      · by_cases ht : t = ""
        · simp [ht]
        · by_cases ha : isAsciiStr tok
          · by_cases hb : isAsciiStr t
            · by_cases he : tok == t <;> simp [ht, ha, hb, he]
            · simp [ht, ha, hb]
          · simp [ht, ha]

/-- C3: for every session store, user store and request, running
AuthMiddleware outside CSRFMiddleware or the other way round produces the
same response (including the exact request state any route handler
observes, which the `routed` response records), and in either order the
session table is queried at most once, because both middlewares read the
session row through the request-scoped cache. -/
theorem C3_middleware_order_independent (sStore : SessionStore)
    (uStore : UserStore) (req : Request) :
    (AuthMiddleware.dispatch sStore uStore req
        (CSRFMiddleware.dispatch sStore req baseHandler) initState).1
      = (CSRFMiddleware.dispatch sStore req
          (AuthMiddleware.dispatch sStore uStore req baseHandler) initState).1
    ∧ (AuthMiddleware.dispatch sStore uStore req
        (CSRFMiddleware.dispatch sStore req baseHandler) initState).2.queries ≤ 1
    ∧ (CSRFMiddleware.dispatch sStore req
        (AuthMiddleware.dispatch sStore uStore req baseHandler) initState).2.queries ≤ 1 := by
  rcases req with ⟨method, cookie, header⟩
  by_cases hm : method ∈ CSRF_SAFE_METHODS <;>
  rcases cookie with _ | sid
  · simp [AuthMiddleware.dispatch, CSRFMiddleware.dispatch, get_or_fetch_session,
      baseHandler, initState, hm]
  · by_cases hsid : sid = "" <;>
    rcases hr : sStore sid with _ | ⟨uid, tok⟩ <;>
    simp [AuthMiddleware.dispatch, CSRFMiddleware.dispatch, get_or_fetch_session,
      baseHandler, initState, hm, hsid, hr]
  · rcases header with _ | t <;>
    simp [AuthMiddleware.dispatch, CSRFMiddleware.dispatch, get_or_fetch_session,
      baseHandler, initState, hm]
  · by_cases hsid : sid = ""
    · rcases header with _ | t <;>
      simp [AuthMiddleware.dispatch, CSRFMiddleware.dispatch, get_or_fetch_session,
        baseHandler, initState, hm, hsid]
    · rcases hr : sStore sid with _ | ⟨uid, tok⟩
      · rcases header with _ | t <;>
        simp [AuthMiddleware.dispatch, CSRFMiddleware.dispatch, get_or_fetch_session,
          baseHandler, initState, hm, hsid, hr]
      · rcases header with _ | t
        · simp [AuthMiddleware.dispatch, CSRFMiddleware.dispatch, get_or_fetch_session,
            baseHandler, initState, hm, hsid, hr]
        · by_cases ht : t = ""
          · simp [AuthMiddleware.dispatch, CSRFMiddleware.dispatch, get_or_fetch_session,
              baseHandler, initState, hm, hsid, hr, ht]
          · rcases hcd : compare_digest tok t with e | b
            · simp [AuthMiddleware.dispatch, CSRFMiddleware.dispatch, get_or_fetch_session,
                baseHandler, initState, hm, hsid, hr, ht, hcd]
            · cases b <;>
              simp [AuthMiddleware.dispatch, CSRFMiddleware.dispatch, get_or_fetch_session,
                baseHandler, initState, hm, hsid, hr, ht, hcd]

/-- C9 counterexample: the session id is not drawn from a space of at
least `2 ^ 128` possibilities: the set of strings `str(uuid.uuid4())` can
return has at most `2 ^ 122` elements (uuid4 overwrites six of the 128
random bits), so the claimed conjunction fails. -/
theorem C9_entropy_counterexample :
    ¬ (2 ^ 128 ≤ sessionIdSpace.card ∧ 2 ^ 128 ≤ csrfTokenSpace.card) := by
  intro h
  have h2 : sessionIdSpace.card < 2 ^ 128 :=
    Nat.lt_of_le_of_lt sessionIdSpace_card_le (by norm_num)
  omega

/-- C9 (amended): session creation generates two independent random
tokens; the csrf_token is drawn from a space of at least `2 ^ 128`
possibilities (exactly `2 ^ 256`: `token_urlsafe(32)` base64-encodes 32
random bytes injectively), but the session id, a version-4 UUID, is drawn
from a space of at most `2 ^ 122` possibilities, since uuid4 fixes six of
the 128 random bits — fewer than the claimed `2 ^ 128`. -/
theorem C9_token_space_sizes :
    2 ^ 128 ≤ csrfTokenSpace.card
    ∧ csrfTokenSpace.card = 2 ^ 256
    ∧ sessionIdSpace.card ≤ 2 ^ 122 :=
  ⟨by rw [csrfTokenSpace_card]; norm_num, csrfTokenSpace_card, sessionIdSpace_card_le⟩

/-- C10: when the session cookie resolves to a session row whose user id
matches no stored user, AuthMiddleware attaches `None` as the user while
still attaching the session csrf token (the route sees an anonymous
request), and CSRFMiddleware still enforces token validation on a
state-changing method — here, rejecting a request with no header as
"token missing". -/
theorem C10_unknown_user (sStore : SessionStore) (uStore : UserStore)
    (req : Request) (sid : String) (uid : Nat) (tok : String)
    (hc : req.sessionCookie = some sid) (hne : sid ≠ "")
    (hs : sStore sid = some (uid, tok)) (hu : uStore uid = none) :
    (AuthMiddleware.dispatch sStore uStore req baseHandler initState).1
        = .ok (.routed ⟨none, some tok, some (some (uid, tok)), 1⟩)
    ∧ (req.method ∈ CSRF_PROTECTED_METHODS → req.xcsrfToken = none →
        (CSRFMiddleware.dispatch sStore req baseHandler initState).1
          = .ok .csrfMissing) := by
  constructor
  · simp [AuthMiddleware.dispatch, get_or_fetch_session, baseHandler, initState,
      hc, hne, hs, hu]
  · intro hp hh
    have hm : req.method ∉ CSRF_SAFE_METHODS := by
      simp [CSRF_PROTECTED_METHODS] at hp
      rcases hp with h | h | h | h <;> rw [h] <;> decide
    simp [CSRFMiddleware.dispatch, get_or_fetch_session, baseHandler, initState,
      hm, hc, hne, hs, hh]

/-- C10 witness: the theorem instantiated at a concrete POST request with
session id `s1` mapping to user 5, a user store that knows no users, and
no `X-CSRFToken` header. -/
theorem C10_unknown_user_witness :
    (AuthMiddleware.dispatch (fun s => if s = "s1" then some (5, "t1") else none)
        (fun _ => none) { method := "POST", sessionCookie := some "s1", xcsrfToken := none }
        baseHandler initState).1
      = .ok (.routed ⟨none, some "t1", some (some (5, "t1")), 1⟩)
    ∧ (CSRFMiddleware.dispatch (fun s => if s = "s1" then some (5, "t1") else none)
        { method := "POST", sessionCookie := some "s1", xcsrfToken := none }
        baseHandler initState).1 = .ok .csrfMissing := by
  have h := C10_unknown_user (fun s => if s = "s1" then some (5, "t1") else none)
    (fun _ => none) { method := "POST", sessionCookie := some "s1", xcsrfToken := none }
    "s1" 5 "t1" rfl (by decide) (by decide) rfl
  exact ⟨h.1, h.2 (by decide) rfl⟩

/-- C4 witness: the amended theorem instantiated at password `pw` and salt
`ab`, simplified with reflexivity of the hash comparison: verifying the
password that produced the stored string succeeds. -/
theorem C4_verify_witness :
    verify_password "pw" (stored_password_hash "pw" "ab") = .ok true := by
  have h := C4_verify_iff_hash_eq "pw" "pw" "ab" (by decide)
  simpa using h

/-- C6 witness: the amended theorem instantiated at the iteration field
`600000` with a hash actually derived with 600000 iterations: verification
succeeds. -/
theorem C6_verify_witness :
    verify_password "pw" ("pbkdf2:sha256:" ++ "600000" ++ "$" ++ "ab" ++ "$" ++
        String.mk (bytesToHex (pbkdf2HmacSha256 600000 (utf8Encode "pw") (utf8Encode "ab"))))
      = .ok true := by
  have h := C6_only_hardcoded_iterations "600000" 600000 "pw" "ab" (by decide) (by decide)
  simpa using h

/-- C7 (amended): the ounces-to-microliters-and-back round trip is exact
for every 2-decimal ounce value `n / 100` with `|n| ≤ 10 ^ 21` — far
beyond the 0–10 oz range the application accepts.  The original claim's
unrestricted quantifier fails: at astronomically large inputs `quantize`
raises `InvalidOperation` (see the counterexample), so the conversion
errors instead of round-tripping. -/
theorem C7_two_decimal_roundtrip (n : ℤ) (hn : n.natAbs ≤ 10 ^ 21) :
    (ounces_to_microliters ⟨n, -2⟩).bind microliters_to_ounces = Except.ok ⟨n, -2⟩ := by
  rw [o2m_eval n hn]
  have hmcl := rhuDiv_close (n * 295735) 1000 (by norm_num)
  push_cast at hmcl
  have hmb := m_bound n hn
  set m := rhuDiv (n * 295735) 1000 with hmdef
  have hn2 : |n| ≤ 10 ^ 21 := by
    rw [Int.abs_eq_natAbs]
    exact_mod_cast hn
  have hM : MICROLITERS_TO_OZ = ⟨3381405650328841699494479855, -32⟩ := by decide
  have hmul : Dec.mul ⟨m, 0⟩ MICROLITERS_TO_OZ
      = ctxRound 28 ⟨m * 3381405650328841699494479855, -32⟩ := by
    rw [hM]
    show ctxRound 28 ⟨m * 3381405650328841699494479855, 0 + -32⟩ = _
    norm_num
  have hPdig : numDigits (m * 3381405650328841699494479855) ≤ 28 + 24 := by
    rw [numDigits_le_iff (by omega), Int.natAbs_mul]
    have h1 : m.natAbs ≤ 295735 * 10 ^ 18 := by
      have h0 : (m.natAbs : ℤ) ≤ 295735 * 10 ^ 18 := by
        rw [← Int.abs_eq_natAbs]
        exact hmb
      exact_mod_cast h0
    calc m.natAbs * (3381405650328841699494479855 : ℤ).natAbs
        ≤ 295735 * 10 ^ 18 * (3381405650328841699494479855 : ℤ).natAbs :=
          Nat.mul_le_mul_right _ h1
      _ < 10 ^ (28 + 24) := by norm_num
  obtain ⟨C, t, hct, ht, hCdig, herr⟩ :=
    ctxRound_spec (m * 3381405650328841699494479855) (-32) 24 hPdig
  show (Dec.mul ⟨m, 0⟩ MICROLITERS_TO_OZ).quantizeHalfUp (-2) = Except.ok ⟨n, -2⟩
  rw [hmul, hct]
  have hid : 1000 * (m * 3381405650328841699494479855 - n * 10 ^ 30)
      = (m * 1000 - n * 295735) * 3381405650328841699494479855 + n * (-81575) := by
    ring
  have habs1 : |(m * 1000 - n * 295735) * (3381405650328841699494479855 : ℤ)|
      ≤ 500 * 3381405650328841699494479855 := by
    rw [abs_mul,
      (by norm_num : |(3381405650328841699494479855 : ℤ)| = 3381405650328841699494479855)]
    have h0 : |m * 1000 - n * 295735| ≤ 500 := by linarith
    exact mul_le_mul_of_nonneg_right h0 (by norm_num)
  have habs2 : |n * (-81575 : ℤ)| ≤ 10 ^ 21 * 81575 := by
    rw [abs_mul, (by norm_num : |(-81575 : ℤ)| = 81575)]
    exact mul_le_mul_of_nonneg_right hn2 (by norm_num)
  have h1000 : (1000 : ℤ) * |m * 3381405650328841699494479855 - n * 10 ^ 30|
      ≤ 500 * 3381405650328841699494479855 + 10 ^ 21 * 81575 := by
    have h0 : |(1000 : ℤ) * (m * 3381405650328841699494479855 - n * 10 ^ 30)|
        = 1000 * |m * 3381405650328841699494479855 - n * 10 ^ 30| := by
      rw [abs_mul, (by norm_num : |(1000 : ℤ)| = 1000)]
    have h2 : |(1000 : ℤ) * (m * 3381405650328841699494479855 - n * 10 ^ 30)|
        ≤ 500 * 3381405650328841699494479855 + 10 ^ 21 * 81575 := by
      rw [hid]
      exact le_trans (abs_add _ _) (by linarith)
    linarith
  have hkey : 2 * |C * (10 : ℤ) ^ t - n * 10 ^ 30| < 10 ^ 30 := by
    have htri : |C * (10 : ℤ) ^ t - n * 10 ^ 30|
        ≤ |C * (10 : ℤ) ^ t - m * 3381405650328841699494479855|
          + |m * 3381405650328841699494479855 - n * 10 ^ 30| := abs_sub_le _ _ _
    norm_num at herr h1000 htri ⊢
    linarith
  have hsplit : (10 : ℤ) ^ 30 = (10 : ℤ) ^ (30 - t) * (10 : ℤ) ^ t := by
    rw [← pow_add]
    congr 1
    omega
  have hfac : C * (10 : ℤ) ^ t - n * 10 ^ 30
      = (C - n * (10 : ℤ) ^ (30 - t)) * (10 : ℤ) ^ t := by
    rw [hsplit]
    ring
  have hkey2 : 2 * |C - n * (10 : ℤ) ^ (30 - t)| < (10 : ℤ) ^ (30 - t) := by
    have hp : (0 : ℤ) < (10 : ℤ) ^ t := by positivity
    have h2 : 2 * |C - n * (10 : ℤ) ^ (30 - t)| * (10 : ℤ) ^ t
        < (10 : ℤ) ^ (30 - t) * (10 : ℤ) ^ t := by
      calc 2 * |C - n * (10 : ℤ) ^ (30 - t)| * (10 : ℤ) ^ t
          = 2 * |(C - n * (10 : ℤ) ^ (30 - t)) * (10 : ℤ) ^ t| := by
            rw [abs_mul, abs_of_nonneg (le_of_lt hp)]
            ring
        _ = 2 * |C * (10 : ℤ) ^ t - n * 10 ^ 30| := by rw [← hfac]
        _ < 10 ^ 30 := hkey
        _ = (10 : ℤ) ^ (30 - t) * (10 : ℤ) ^ t := hsplit
    exact lt_of_mul_lt_mul_right h2 (le_of_lt hp)
  have hc2 : rhuDiv C (10 ^ (30 - t)) = n := by
    apply rhuDiv_eq_of_close _ _ _ (by positivity)
    push_cast
    exact hkey2
  have hndig : ¬ 28 < numDigits n := by
    have h0 : numDigits n ≤ 22 := by
      rw [numDigits_le_iff (by omega)]
      calc n.natAbs ≤ 10 ^ 21 := hn
        _ < 10 ^ 22 := by norm_num
    omega
  simp only [Dec.quantizeHalfUp]
  rw [if_neg (show ¬ (0 : ℤ) ≤ (-32 + (t : ℤ)) - (-2) by omega)]
  rw [(show (-((-32 + (t : ℤ)) - (-2))).toNat = 30 - t by omega)]
  rw [hc2, if_neg hndig]

/-- C7 counterexample: at `10 ^ 26` ounces (a value with at most two
fractional digits, here coefficient `10 ^ 28` at exponent `-2`), the
integer microliter amount needs 34 digits, `quantize` in
`ounces_to_microliters` raises `InvalidOperation` under the 28-digit
default context, and the round trip propagates the error instead of
returning the input, refuting the claim's universal quantifier. -/
theorem C7_overflow_counterexample :
    (ounces_to_microliters ⟨10 ^ 28, -2⟩).bind microliters_to_ounces
      = Except.error () := by rfl

/-- C7 witness: the round-trip theorem instantiated at 3.25 ounces
(96114 microliters and back). -/
theorem C7_roundtrip_witness :
    (ounces_to_microliters ⟨325, -2⟩).bind microliters_to_ounces
      = Except.ok ⟨325, -2⟩ :=
  C7_two_decimal_roundtrip 325 (by decide)

/-- C8 counterexample: `Feed.from_form` applied to `-1.00` ounces
produces a `Feed` whose volume is the negative integer `-29574`
microliters, refuting the claim that every `Feed` the constructors
produce has a non-negative micro-unit volume. -/
theorem C8_negative_counterexample :
    Feed.from_form ⟨-100, -2⟩ "14:30" "2025-12-09" "UTC"
        = Except.ok ⟨none, -29574, ⟨"2025-12-09", "14:30", "UTC"⟩⟩ ∧
      (-29574 : ℤ) < 0 :=
  ⟨by rfl, by decide⟩

/-- C8 (amended): every `Feed` that `Feed.from_form` produces from a
non-negative ounces value has a non-negative integer micro-unit volume;
the constructor itself does not enforce the invariant, since a negative
ounces input yields a negative volume. -/
theorem C8_from_form_nonneg (ounces : Dec) (time date timezone : String) (f : Feed)
    (h0 : 0 ≤ ounces.c)
    (hf : Feed.from_form ounces time date timezone = Except.ok f) :
    0 ≤ f.volume_ul := by
  unfold Feed.from_form at hf
  cases hv : ounces_to_microliters ounces with
  | error e =>
    rw [hv] at hf
    simp [Except.map] at hf
  | ok v =>
    rw [hv] at hf
    simp only [Except.map, Except.ok.injEq] at hf
    subst hf
    show 0 ≤ v
    unfold ounces_to_microliters at hv
    have hmulc : 0 ≤ (Dec.mul ounces OZ_TO_MICROLITERS).c := by
      have : Dec.mul ounces OZ_TO_MICROLITERS
          = ctxRound 28 ⟨ounces.c * 295735, ounces.e + -1⟩ := rfl
      rw [this]
      exact ctxRound_nonneg _ (by positivity)
    set w := Dec.mul ounces OZ_TO_MICROLITERS with hw
    simp only [Dec.quantizeHalfUp] at hv
    split_ifs at hv with hk hd
    · simp [Except.map] at hv
    · simp only [Except.map, Except.ok.injEq] at hv
      rw [← hv]
      positivity
    · simp [Except.map] at hv
    · simp only [Except.map, Except.ok.injEq] at hv
      rw [← hv]
      exact rhuDiv_nonneg _ _ hmulc

/-- C8 witness: the amended theorem instantiated at 1.00 ounces and the
`Feed` it produces, whose volume is 29574 microliters. -/
theorem C8_from_form_witness :
    0 ≤ (Feed.mk none 29574 ⟨"2025-12-09", "14:30", "UTC"⟩).volume_ul :=
  C8_from_form_nonneg ⟨100, -2⟩ "14:30" "2025-12-09" "UTC"
    ⟨none, 29574, ⟨"2025-12-09", "14:30", "UTC"⟩⟩ (by decide) (by rfl)

end FeedBaby
